import Mathlib

/-!
Shallow embedding of the Biaspectual-Verbs scraper.

The repository drives a headless browser through a linguistic corpus site
(`scrapper.py`, `facade_api.py`, `start.py`) and through a Wiktionary
category (`parse_biaspectives.py`).  Browser observations (element texts,
wait outcomes, presence of controls) are supplied by explicit environment
values; Python strings are `List Char`; Python exceptions of the Selenium
`WebDriverException` family are the inductive `Exn`.  Each Python function
with a `try/except` is translated with its handler made explicit.
-/

namespace BiaspectualVerbs

/-- Python `needle` is a prefix of `hay` (character-wise comparison). -/
def beginsWith : List Char → List Char → Bool
  | [], _ => true
  | _ :: _, [] => false
  | a :: as, b :: bs => a == b && beginsWith as bs

/-- Python substring containment `needle in hay`. -/
def hasSub (needle : List Char) : List Char → Bool
  | [] => beginsWith needle []
  | c :: rest => beginsWith needle (c :: rest) || hasSub needle rest

/-- Python `str.strip()`: drop leading and trailing whitespace. -/
def strip (s : List Char) : List Char :=
  ((s.dropWhile Char.isWhitespace).reverse.dropWhile Char.isWhitespace).reverse

/-- The verb part-of-speech marker tested in `Scrapper.collect_data`. -/
def verbMarker : List Char := "глагол".data

/-- The imperfective marker (no leading space), `scrapper.py` line 117. -/
def impfMarker : List Char := "несовершенный".data

/-- The perfective marker with its leading space, `scrapper.py` line 118. -/
def perfMarkerSp : List Char := " совершенный".data

/-- Citation marker tested in `MorphonologyExtractor._extract_verb_morphonology`. -/
def citMarker : List Char := "[Тихонов, 1996]".data

/-- The record built in `Scrapper.process_element` (the nine extracted
fields, keyed in the source by Russian names).  All parser-produced fields
are optional: `custom_parser.Parser` methods catch their own
`NoSuchElementException`/`TimeoutException` and return `None`. -/
structure WordData where
  mainAnalysis : Option (List Char)
  surfaceForm : List Char
  lemmaText : Option (List Char)
  context : Option (List Char)
  grammar : Option (List Char)
  semantics : Option (List Char)
  relatedWords : Option (List Char)
  syntacticProperties : Option (List Char)
  additionalFeatures : Option (List Char)
  deriving DecidableEq

/-- The three per-word accumulators of `Scrapper.collect_data`. -/
structure Buckets where
  perfective : List WordData
  imperfective : List WordData
  bothPossible : List WordData
  deriving DecidableEq

/-- The empty bucket triple `[], [], []` of `collect_data` line 108. -/
def emptyBuckets : Buckets := ⟨[], [], []⟩

/-- Total number of records held across the three buckets. -/
def bucketsLen (b : Buckets) : Nat :=
  b.perfective.length + b.imperfective.length + b.bothPossible.length

/-- The classification-and-append chain of `Scrapper.collect_data`
lines 115-126, applied to one `word_data` coming out of
`process_element`.  Mirrors the Python truthiness tests
`word_data and word_data.get('грамматика')` and the substring checks. -/
def routeRecord (word_data : Option WordData) (b : Buckets) : Buckets :=
  match word_data with
  | none => b
  | some wd =>
    match wd.grammar with
    | none => b
    | some g =>
      if !g.isEmpty && hasSub verbMarker g then
        if hasSub impfMarker g && !hasSub perfMarkerSp g then
          { b with imperfective := b.imperfective ++ [wd] }
        else if hasSub perfMarkerSp g && !hasSub impfMarker g then
          { b with perfective := b.perfective ++ [wd] }
        else if hasSub impfMarker g && hasSub perfMarkerSp g then
          { b with bothPossible := b.bothPossible ++ [wd] }
        else b
      else b

/-- Aspect values of the specification's Aspect Classifier. -/
inductive Aspect where
  | perfective
  | imperfective
  | bothPossible
  deriving DecidableEq

/-- Reference classifier, written from the claim's words: no bucket unless
the grammar field is present and contains the verb marker; given that,
imperfective iff the imperfective marker occurs and the leading-space
perfective marker does not, perfective iff the converse, bothPossible iff
both occur, dropped otherwise. -/
def classifySpec (grammar : Option (List Char)) : Option Aspect :=
  match grammar with
  | none => none
  | some g =>
    if hasSub verbMarker g then
      match hasSub impfMarker g, hasSub perfMarkerSp g with
      | true, false => some Aspect.imperfective
      | false, true => some Aspect.perfective
      | true, true => some Aspect.bothPossible
      | false, false => none
    else none

/-- Append a record to the bucket selected by an aspect value. -/
def applyAspect (a : Option Aspect) (wd : WordData) (b : Buckets) : Buckets :=
  match a with
  | some Aspect.imperfective => { b with imperfective := b.imperfective ++ [wd] }
  | some Aspect.perfective => { b with perfective := b.perfective ++ [wd] }
  | some Aspect.bothPossible => { b with bothPossible := b.bothPossible ++ [wd] }
  | none => b

/-- Selenium exceptions observable in this code base.  All three are
subclasses of `WebDriverException`, so every `except` clause appearing in
the sources — `except WebDriverException` and
`except (NoSuchElementException, TimeoutException, WebDriverException)` —
catches every `Exn` value. -/
inductive Exn where
  | noSuchElement
  | timeout
  | webDriver
  deriving DecidableEq

/-- Environment for one hit element of a result page: its rendered text,
the outcome of the nine-field extraction attempted inside
`process_element`'s `try` block (an `Exn` models a fault escaping the
parser, e.g. a `WebDriverException` its per-field handlers do not catch),
and whether the overlay close control `button.info-modal__close` can be
located by the `finally` block. -/
structure ElementEnv where
  text : List Char
  mainAnalysis : Option (List Char)
  lemmaText : Option (List Char)
  context : Option (List Char)
  grammar : Option (List Char)
  semantics : Option (List Char)
  relatedWords : Option (List Char)
  syntacticProperties : Option (List Char)
  additionalFeatures : Option (List Char)
  extractionFault : Option Exn
  closeButton : Bool

/-- The record `process_element` builds when its `try` block succeeds. -/
def recordOf (e : ElementEnv) : WordData :=
  { mainAnalysis := e.mainAnalysis
    surfaceForm := e.text
    lemmaText := e.lemmaText
    context := e.context
    grammar := e.grammar
    semantics := e.semantics
    relatedWords := e.relatedWords
    syntacticProperties := e.syntacticProperties
    additionalFeatures := e.additionalFeatures }

/-- `Scrapper.process_element`: scroll, click, extract the nine fields
inside `try` (any of the three caught exception kinds yields `None`),
then in `finally` locate and click the overlay close control.  Returns
the Python result (`Except.error` models an exception propagating to the
caller: when locating the close control fails, the `finally` block raises
`NoSuchElementException`, discarding the `try` result) together with the
number of clicks performed on the close control. -/
def process_element (e : ElementEnv) : Except Exn (Option WordData) × Nat :=
  let body : Option WordData :=
    match e.extractionFault with
    | some _ => none
    | none => some (recordOf e)
  if e.closeButton then
    (Except.ok body, 1)
  else
    (Except.error Exn.noSuchElement, 0)

/-- The `for`-loop body of `collect_data` over the hit elements of one
page: process each element in document order and route its record; an
exception raised by `process_element` propagates (second component) and
later elements are not processed. -/
def processHits (b : Buckets) : List ElementEnv → Buckets × Option Exn
  | [] => (b, none)
  | e :: rest =>
    match process_element e with
    | (Except.error ex, _) => (b, some ex)
    | (Except.ok word_data, _) => processHits (routeRecord word_data b) rest

/-- Environment for one iteration of the `collect_data` page loop: the
outcome of waiting for the page's hit elements, and whether
`go_to_next_page` succeeds (it returns `False` on an absent, disabled or
faulting next-page control, catching its own exceptions). -/
structure PageEnv where
  hits : Except Exn (List ElementEnv)
  nextPage : Bool

/-- Result of the `collect_data` page loop: the buckets plus the trace of
`page_number` values at each loop entry (instrumentation for stating the
pagination bounds). -/
structure CollectResult where
  buckets : Buckets
  trace : List Nat
  deriving DecidableEq

/-- The `while page_number <= 10` loop of `Scrapper.collect_data`, with
`fuel = 11 - page_number` remaining iterations.  The `try` of each
iteration catches every `Exn` (all are `WebDriverException`s) and breaks;
a failed `go_to_next_page` also breaks. -/
def collectGo (env : Nat → PageEnv) (b : Buckets) (page_number fuel : Nat) :
    CollectResult :=
  match fuel with
  | 0 => ⟨b, []⟩
  | Nat.succ f =>
    match (env page_number).hits with
    | Except.error _ => ⟨b, [page_number]⟩
    | Except.ok elems =>
      match processHits b elems with
      | (b', some _) => ⟨b', [page_number]⟩
      | (b', none) =>
        if (env page_number).nextPage then
          let r := collectGo env b' (page_number + 1) f
          ⟨r.buckets, page_number :: r.trace⟩
        else ⟨b', [page_number]⟩

/-- `Scrapper.collect_data`: buckets start empty, `page_number` starts at
1, the loop runs while `page_number <= 10`. -/
def collect_data (env : Nat → PageEnv) : CollectResult :=
  collectGo env emptyBuckets 1 10

/-- `Scrapper.navigate_to_search`: `driver.get` then a fixed settle
pause, inside `try ... except WebDriverException` which logs and returns.
Every `Exn` is a `WebDriverException`, so the function never raises. -/
def navigate_to_search (outcome : Option Exn) : Unit :=
  match outcome with
  | some _ => ()
  | none => ()

/-- `Scrapper.input_word`: wait for the query input, clear, type, locate
and click the search-submit control, inside
`try ... except (NoSuchElementException, TimeoutException,
WebDriverException)` which logs and returns.  Never raises. -/
def input_word (outcome : Option Exn) : Unit :=
  match outcome with
  | some _ => ()
  | none => ()

/-- Environment for one word's end-to-end processing. -/
structure WordEnv where
  navigateOutcome : Option Exn
  inputWordOutcome : Option Exn
  pages : Nat → PageEnv

/-- `FacadeAPI.process_word`: `navigate_to_search`; `input_word`; return
`collect_data`.  The source wraps these in
`try ... except WebDriverException: return None`; that handler is
unreachable because the three callees each catch every
`WebDriverException`-family fault internally, so the model always takes
the `some` branch. -/
def process_word (env : WordEnv) : Option CollectResult :=
  let _ := navigate_to_search env.navigateOutcome
  let _ := input_word env.inputWordOutcome
  some (collect_data env.pages)

/-- Python faults that can end `start.main` early. -/
inductive PyErr where
  | typeError
  deriving DecidableEq

/-- The per-word loop of `start.main`: for each word call
`process_word` and unpack the returned triple into three variables.
Unpacking `None` raises `TypeError`, which `main` catches nowhere
(its handlers cover only `FileNotFoundError` and `JSONDecodeError`),
aborting the batch. -/
def mainGo (envOf : List Char → WordEnv) :
    List (List Char) → List (List Char × CollectResult) →
    Except PyErr (List (List Char × CollectResult))
  | [], acc => Except.ok acc
  | w :: rest, acc =>
    match process_word (envOf w) with
    | some r => mainGo envOf rest (acc ++ [(w, r)])
    | none => Except.error PyErr.typeError

/-- The word-processing loop of `start.main` over a word list. -/
def main_loop (envOf : List Char → WordEnv) (words : List (List Char)) :
    Except PyErr (List (List Char × CollectResult)) :=
  mainGo envOf words []

/-- Python `dict` assignment `d[k] = v`: overwrite the entry of an
existing key in place, else append a new entry. -/
def dictInsert {K V : Type} [DecidableEq K] :
    List (K × V) → K → V → List (K × V)
  | [], k, v => [(k, v)]
  | p :: t, k, v => if p.1 = k then (k, v) :: t else p :: dictInsert t k v

/-- Python `d.update(other)`: assign every entry of `other` into `d`, in
order. -/
def dictUpdate {K V : Type} [DecidableEq K]
    (d other : List (K × V)) : List (K × V) :=
  other.foldl (fun acc p => dictInsert acc p.1 p.2) d

/-- Python `d.get(k)` / key lookup (keys are unique in a real dict; on an
association list this returns the first match). -/
def dictLookup {K V : Type} [DecidableEq K] :
    List (K × V) → K → Option V
  | [], _ => none
  | p :: t, k => if p.1 = k then some p.2 else dictLookup t k

/-- Number of entries of an association list carrying a given key. -/
def keyCount {K V : Type} [DecidableEq K] : List (K × V) → K → Nat
  | [], _ => 0
  | p :: t, k => (if p.1 = k then 1 else 0) + keyCount t k

/-- Value of the LAST entry of an association list carrying a given key
(the value a sequence of Python dict assignments leaves live). -/
def lookupLast {K V : Type} [DecidableEq K] :
    List (K × V) → K → Option V
  | [], _ => none
  | p :: t, k =>
    match lookupLast t k with
    | some v => some v
    | none => if p.1 = k then some p.2 else none

/-- Reference lookup from the claim's words: the URL a label maps to is
the one harvested on the LATEST listing page mentioning the label. -/
def lastWins {K V : Type} [DecidableEq K] :
    List (List (K × V)) → K → Option V
  | [], _ => none
  | d :: ds, k =>
    match lastWins ds k with
    | some v => some v
    | none => lookupLast d k

/-- One anchor of a Wiktionary category listing: its `href` attribute and
its rendered text. -/
structure AnchorEnv where
  href : List Char
  text : List Char

/-- `PageExtractor._extract_verbs_from_page`: iterate the entry groups of
`#mw-pages > div` and their anchors, strip url and text, skip empty
labels and the literal label `рещи`, and assign into a fresh page dict. -/
def extract_verbs_from_page (entries : List (List AnchorEnv)) :
    List (List Char × List Char) :=
  entries.foldl
    (fun d entry =>
      entry.foldl
        (fun d a =>
          let article_url := strip a.href
          let verb := strip a.text
          if !verb.isEmpty && verb ≠ "рещи".data then
            dictInsert d verb article_url
          else d)
        d)
    []

/-- Environment for one iteration of the category-crawl loop: whether the
wait for the listing container succeeds, the anchor groups of the page,
and whether the wait for the next-page control succeeds.  A failed wait
raises `TimeoutException`, ending the loop through
`except TimeoutException: pass`. -/
structure CrawlPageEnv where
  container : Bool
  entries : List (List AnchorEnv)
  nextButton : Bool

/-- Result of `PageExtractor.extract_biaspectives`: the cumulative
verb-to-url dict, the trace of `page_counter` values at each loop entry,
and the page dicts merged in, in order (instrumentation). -/
structure CrawlResult where
  dict : List (List Char × List Char)
  trace : List Nat
  pageDicts : List (List (List Char × List Char))

/-- The `while page_counter < 8` loop of
`PageExtractor.extract_biaspectives`, with `fuel = 8 - page_counter`
remaining iterations: wait for the container (timeout ends the loop
before harvesting), harvest and `update` the dict, wait for the
next-page control (timeout ends the loop after harvesting), click,
increment. -/
def crawlGo (env : Nat → CrawlPageEnv)
    (d : List (List Char × List Char)) (page_counter fuel : Nat) :
    CrawlResult :=
  match fuel with
  | 0 => ⟨d, [], []⟩
  | Nat.succ f =>
    let p := env page_counter
    if p.container then
      let pageDict := extract_verbs_from_page p.entries
      let d' := dictUpdate d pageDict
      if p.nextButton then
        let r := crawlGo env d' (page_counter + 1) f
        ⟨r.dict, page_counter :: r.trace, pageDict :: r.pageDicts⟩
      else ⟨d', [page_counter], [pageDict]⟩
    else ⟨d, [page_counter], []⟩

/-- `PageExtractor.extract_biaspectives`: dict starts empty,
`page_counter` starts at 1, the loop runs while `page_counter < 8`. -/
def extract_biaspectives (env : Nat → CrawlPageEnv) : CrawlResult :=
  crawlGo env [] 1 7

/-- The record built by
`MorphonologyExtractor._extract_verb_morphonology` (source keys
`'лемма'`, `'ударение'`, `'морфемный разбор'`). -/
structure VerbMorphonology where
  lemmaText : List Char
  stress : List Char
  morphemes : List Char
  deriving DecidableEq

/-- Python `IndexError`, raised by `verb_features[0]` / `verb_features[2]`
on a page with fewer than three paragraph elements. -/
inductive IndexError where
  | indexError
  deriving DecidableEq

/-- `MorphonologyExtractor._extract_verb_morphonology`: navigate to the
article, take the page's paragraph texts, index 0 as stress and index 2
as morphemic analysis (either indexing can raise `IndexError`), and
return a record only when the analysis contains the citation marker —
otherwise Python falls off the function and returns `None`.  Mirrors the
truthiness guards `verb if verb else ''` etc. -/
def extract_verb_morphonology (verb : List Char)
    (paragraphs : List (List Char)) : Except IndexError (Option VerbMorphonology) :=
  match paragraphs.get? 0 with
  | none => Except.error IndexError.indexError
  | some p0 =>
    match paragraphs.get? 2 with
    | none => Except.error IndexError.indexError
    | some p2 =>
      let stress := strip p0
      let morphemes := strip p2
      if hasSub citMarker morphemes then
        Except.ok (some
          { lemmaText := if verb.isEmpty then [] else verb
            stress := if stress.isEmpty then [] else stress
            morphemes := if morphemes.isEmpty then [] else morphemes })
      else Except.ok none

/-- The `for verb, url in dict_articles_urls.items()` loop of
`MorphonologyExtractor.parse_morphonology_dataset`: visit each pair in
order, append emitted records to the dataset; an `IndexError` is caught
by the handler wrapping the WHOLE loop, so it ends the loop with the
dataset accumulated so far and no later pair visited.  Returns the
dataset and the trace of visited pairs (instrumentation). -/
def parseGo (pageOf : List Char → List (List Char)) :
    List (List Char × List Char) → List VerbMorphonology →
    List (List Char × List Char) →
    List VerbMorphonology × List (List Char × List Char)
  | [], acc, visited => (acc, visited)
  | (verb, url) :: rest, acc, visited =>
    match extract_verb_morphonology verb (pageOf url) with
    | Except.error _ => (acc, visited ++ [(verb, url)])
    | Except.ok none => parseGo pageOf rest acc (visited ++ [(verb, url)])
    | Except.ok (some m) =>
      parseGo pageOf rest (acc ++ [m]) (visited ++ [(verb, url)])

/-- `MorphonologyExtractor.parse_morphonology_dataset` over a loaded
article dict, with `pageOf` giving each URL's paragraph texts. -/
def parse_morphonology_dataset (pageOf : List Char → List (List Char))
    (articles : List (List Char × List Char)) :
    List VerbMorphonology × List (List Char × List Char) :=
  parseGo pageOf articles [] []

/-- A grammar string containing both aspect markers but no verb marker. -/
def cexGrammar : List Char := "несовершенный, совершенный".data

/-- A record whose grammar carries both aspect markers but not `глагол`. -/
def cexRecord : WordData :=
  { mainAnalysis := none
    surfaceForm := "бах".data
    lemmaText := none
    context := none
    grammar := some cexGrammar
    semantics := none
    relatedWords := none
    syntacticProperties := none
    additionalFeatures := none }

/-- A grammar string containing the verb marker and both aspect markers. -/
def bothGrammar : List Char := "глагол, несовершенный, совершенный".data

/-- A record whose grammar carries `глагол` and both aspect markers. -/
def bothRecord : WordData :=
  { mainAnalysis := none
    surfaceForm := "казнить".data
    lemmaText := some "казнить".data
    context := none
    grammar := some bothGrammar
    semantics := none
    relatedWords := none
    syntacticProperties := none
    additionalFeatures := none }

/-- Simulated session for the word X: the search-submit wait times out,
and (the query never having been submitted) the hit-element wait of every
result page times out as well. -/
def submitTimeoutEnv : WordEnv :=
  { navigateOutcome := none
    inputWordOutcome := some Exn.timeout
    pages := fun _ => { hits := Except.error Exn.timeout, nextPage := false } }

/-- Simulated session whose driver raises `WebDriverException` at the
very first driver call (`driver.get`) and at every page wait. -/
def driverFaultEnv : WordEnv :=
  { navigateOutcome := some Exn.webDriver
    inputWordOutcome := none
    pages := fun _ => { hits := Except.error Exn.webDriver, nextPage := false } }

/-- A hit element whose nine-field extraction fully succeeds. -/
def hitFullSuccess : ElementEnv :=
  { text := "бежать".data
    mainAnalysis := some "автоматический".data
    lemmaText := some "бежать".data
    context := some "он пустился бежать".data
    grammar := some "глагол, несовершенный".data
    semantics := some "движение".data
    relatedWords := some "бег".data
    syntacticProperties := some "непереходный".data
    additionalFeatures := some "нет".data
    extractionFault := none
    closeButton := true }

/-- A hit element whose extraction partially fails (several fields come
back as `None` from the parser's own handlers). -/
def hitPartial : ElementEnv :=
  { text := "бежать".data
    mainAnalysis := none
    lemmaText := some "бежать".data
    context := none
    grammar := none
    semantics := none
    relatedWords := none
    syntacticProperties := none
    additionalFeatures := none
    extractionFault := none
    closeButton := true }

/-- A hit element whose extraction throws a `WebDriverException`. -/
def hitThrowing : ElementEnv :=
  { text := "бежать".data
    mainAnalysis := none
    lemmaText := none
    context := none
    grammar := none
    semantics := none
    relatedWords := none
    syntacticProperties := none
    additionalFeatures := none
    extractionFault := some Exn.webDriver
    closeButton := true }

/-- A hit element whose overlay close control cannot be located. -/
def hitNoClose : ElementEnv :=
  { text := "бежать".data
    mainAnalysis := none
    lemmaText := none
    context := none
    grammar := none
    semantics := none
    relatedWords := none
    syntacticProperties := none
    additionalFeatures := none
    extractionFault := none
    closeButton := false }

/-- Page environment: one page whose hits are a well-behaved element
followed by one with a missing close control, with a next page on offer. -/
def noClosePages : Nat → PageEnv :=
  fun _ => { hits := Except.ok [hitFullSuccess, hitNoClose], nextPage := true }

/-- Category crawl of two listing pages repeating the label `брать` with
different URLs. -/
def repeatLabelCrawl : Nat → CrawlPageEnv :=
  fun n =>
    if n = 1 then
      { container := true
        entries := [[{ href := "https://w/a1".data, text := "брать".data }]]
        nextButton := true }
    else if n = 2 then
      { container := true
        entries := [[{ href := "https://w/a2".data, text := "брать".data }]]
        nextButton := false }
    else { container := false, entries := [], nextButton := false }

/-- Paragraph texts of a well-formed article page whose morphemic
analysis carries the citation marker. -/
def markedParagraphs : List (List Char) :=
  ["приватизи́ровать".data,
   "существительное".data,
   "приват-из-ирова-ть [Тихонов, 1996]".data]

/-- A record already harvested before a malformed page is reached. -/
def earlierRecord : VerbMorphonology :=
  { lemmaText := "молвить".data
    stress := "мо́лвить".data
    morphemes := "молв-и-ть [Тихонов, 1996]".data }

/-- Helper: the verb marker is not a substring of the empty string. -/
theorem hasSub_verbMarker_nil : hasSub verbMarker [] = false := by decide

/-- C1: for every extracted occurrence record and bucket state, the
classification-and-append chain of `collect_data` agrees with the
reference classifier `classifySpec` written from the claim: the record is
placed in no bucket unless its grammar field is present and contains
"глагол"; given that, it goes to imperfective iff "несовершенный" occurs
and " совершенный" (leading space) does not, to perfective iff the
converse, to bothPossible iff both occur, and is dropped otherwise. -/
theorem aspect_classification_matches_reference (wd : WordData) (b : Buckets) :
    routeRecord (some wd) b = applyAspect (classifySpec wd.grammar) wd b := by
  rcases wd with ⟨ma, sf, lt, cx, gr, se, rel, syn, af⟩
  simp only [routeRecord, classifySpec, applyAspect]
  cases gr with
  | none => rfl
  | some g =>
    cases g with
    | nil => simp [hasSub_verbMarker_nil]
    | cons c t =>
      cases hv : hasSub verbMarker (c :: t) <;>
        cases h1 : hasSub impfMarker (c :: t) <;>
          cases h2 : hasSub perfMarkerSp (c :: t) <;>
            simp [hv, h1, h2]

/-- C2 counterexample: a grammar string containing both the imperfective
marker and the leading-space perfective marker but not the verb marker
"глагол" lands in NO bucket, refuting the claim that every grammar string
with both aspect markers lands in bothPossible. -/
theorem both_markers_without_verb_marker_dropped :
    hasSub impfMarker cexGrammar = true ∧
    hasSub perfMarkerSp cexGrammar = true ∧
    routeRecord (some cexRecord) emptyBuckets = emptyBuckets := by
  refine ⟨by decide, by decide, by decide⟩

/-- C2 amended: every processed record is appended to at most one of the
three buckets, and every record whose grammar contains the verb marker
"глагол" together with both the imperfective marker and the leading-space
perfective marker lands in bothPossible and in no other bucket. -/
theorem record_in_at_most_one_bucket (word_data : Option WordData) (b : Buckets) :
    bucketsLen (routeRecord word_data b) ≤ bucketsLen b + 1 ∧
    (∀ wd g, word_data = some wd → wd.grammar = some g →
      hasSub verbMarker g = true → hasSub impfMarker g = true →
      hasSub perfMarkerSp g = true →
      routeRecord word_data b =
        { b with bothPossible := b.bothPossible ++ [wd] }) := by
  constructor
  · cases word_data with
    | none => simp [routeRecord]
    | some wd =>
      rcases wd with ⟨ma, sf, lt, cx, gr, se, rel, syn, af⟩
      simp only [routeRecord]
      cases gr with
      | none => exact Nat.le_succ (bucketsLen b)
      | some g =>
        cases g with
        | nil => simp [hasSub_verbMarker_nil, bucketsLen]
        | cons c t =>
          cases hv : hasSub verbMarker (c :: t) <;>
            cases h1 : hasSub impfMarker (c :: t) <;>
              cases h2 : hasSub perfMarkerSp (c :: t) <;>
                simp [hv, h1, h2, bucketsLen] <;> omega
  · rintro wd g rfl hg hv h1 h2
    cases g with
    | nil => rw [hasSub_verbMarker_nil] at hv; exact absurd hv (by simp)
    | cons c t => simp [routeRecord, hg, hv, h1, h2]

/-- C2 witness: the amended claim evaluated on a record whose grammar is
"глагол, несовершенный, совершенный". -/
theorem record_in_at_most_one_bucket_witness :
    bucketsLen (routeRecord (some bothRecord) emptyBuckets) ≤ bucketsLen emptyBuckets + 1 ∧
    routeRecord (some bothRecord) emptyBuckets =
      { emptyBuckets with bothPossible := emptyBuckets.bothPossible ++ [bothRecord] } :=
  ⟨(record_in_at_most_one_bucket (some bothRecord) emptyBuckets).1,
   (record_in_at_most_one_bucket (some bothRecord) emptyBuckets).2 bothRecord bothGrammar
     rfl rfl (by decide) (by decide) (by decide)⟩

/-- Helper: a failing hit-element wait ends the page loop at once,
returning the buckets accumulated so far. -/
theorem collectGo_hits_error (env : Nat → PageEnv) (b : Buckets) (pn f : Nat)
    (ex : Exn) (h : (env pn).hits = Except.error ex) :
    collectGo env b pn (f + 1) = ⟨b, [pn]⟩ := by
  simp [collectGo, h]

/-- C3: when the search-submit step fails for a word (the failure being
caught and logged inside `input_word`) and the hit wait of the first
result page then fails, `process_word` returns rather than raising, with
three empty sequences. -/
theorem submit_failure_returns_empty_buckets (env : WordEnv) (ex : Exn)
    (hsubmit : env.inputWordOutcome = some Exn.timeout)
    (hhits : (env.pages 1).hits = Except.error ex) :
    process_word env = some ⟨emptyBuckets, [1]⟩ := by
  have h10 : (10 : Nat) = 9 + 1 := rfl
  simp only [process_word, collect_data, h10]
  rw [collectGo_hits_error env.pages emptyBuckets 1 9 ex hhits]

/-- C3 witness: a simulated automation interface that times out on the
search-submit control and on every hit wait yields three empty buckets
from `process_word`, not an exception. -/
theorem submit_failure_returns_empty_buckets_witness :
    process_word submitTimeoutEnv = some ⟨emptyBuckets, [1]⟩ :=
  submit_failure_returns_empty_buckets submitTimeoutEnv Exn.timeout rfl rfl

/-- C4 counterexample: a `WebDriverException` raised at the driver call
`driver.get` (and at every page wait) of one word's `process_word` call is
NOT converted to a nothing result by the facade: the call returns
`some` of the empty buckets, refuting "converted to a nothing result for
that word" — the fault is caught below the facade. -/
theorem driver_fault_not_converted_to_none :
    process_word driverFaultEnv = some ⟨emptyBuckets, [1]⟩ ∧
    process_word driverFaultEnv ≠ none := by
  exact ⟨by decide, by decide⟩

/-- C4 amended: a driver-level (automation-engine) fault raised inside
one word's `process_word` call is caught by the scrapper's own handlers
below the facade — `process_word` never yields a nothing result — and the
batch loop of `start.main` runs to completion over every word of every
run, never aborting. -/
theorem driver_faults_contained_batch_completes
    (envOf : List Char → WordEnv) (words : List (List Char)) :
    (∀ env : WordEnv, process_word env ≠ none) ∧
    (∃ res, main_loop envOf words = Except.ok res ∧ res.map Prod.fst = words) := by
  constructor
  · intro env; simp [process_word]
  · have aux : ∀ (ws : List (List Char)) (acc : List (List Char × CollectResult)),
        ∃ res, mainGo envOf ws acc = Except.ok res ∧
          res.map Prod.fst = acc.map Prod.fst ++ ws := by
      intro ws
      induction ws with
      | nil => intro acc; exact ⟨acc, rfl, by simp⟩
      | cons w rest ih =>
        intro acc
        obtain ⟨res, h1, h2⟩ := ih (acc ++ [(w, collect_data (envOf w).pages)])
        refine ⟨res, ?_, ?_⟩
        · simpa [mainGo, process_word] using h1
        · simpa using h2
    obtain ⟨res, h1, h2⟩ := aux words []
    exact ⟨res, by simpa [main_loop] using h1, by simpa using h2⟩

/-- Helper: length bound, strict monotonicity and lower bound of the
search-session page-number trace. -/
theorem collectGo_trace_bounds (env : Nat → PageEnv) :
    ∀ (fuel : Nat) (b : Buckets) (pn : Nat),
      (collectGo env b pn fuel).trace.length ≤ fuel ∧
      List.Chain' (· < ·) (collectGo env b pn fuel).trace ∧
      (∀ x ∈ (collectGo env b pn fuel).trace, pn ≤ x) := by
  intro fuel
  induction fuel with
  | zero => intro b pn; simp [collectGo]
  | succ f ih =>
    intro b pn
    simp only [collectGo]
    cases h : (env pn).hits with
    | error e => simp
    | ok elems =>
      dsimp only
      rcases hp : processHits b elems with ⟨b', oexn⟩
      cases oexn with
      | some ex => simp
      | none =>
        by_cases hn : (env pn).nextPage
        · simp only [hn, if_true]
          obtain ⟨hl, hc, hge⟩ := ih b' (pn + 1)
          refine ⟨by simpa using Nat.succ_le_succ hl, ?_, ?_⟩
          · refine List.chain'_cons'.mpr ⟨?_, hc⟩
            intro y hy
            have : pn + 1 ≤ y := hge y (List.mem_of_mem_head? hy)
            omega
          · intro x hx
            rcases List.mem_cons.mp hx with h1 | h1
            · omega
            · have := hge x h1; omega
        · simp [hn]

/-- Helper: length bound, strict monotonicity and lower bound of the
category-crawl page-counter trace. -/
theorem crawlGo_trace_bounds (env : Nat → CrawlPageEnv) :
    ∀ (fuel : Nat) (d : List (List Char × List Char)) (pc : Nat),
      (crawlGo env d pc fuel).trace.length ≤ fuel ∧
      List.Chain' (· < ·) (crawlGo env d pc fuel).trace ∧
      (∀ x ∈ (crawlGo env d pc fuel).trace, pc ≤ x) := by
  intro fuel
  induction fuel with
  | zero => intro d pc; simp [crawlGo]
  | succ f ih =>
    intro d pc
    simp only [crawlGo]
    by_cases hcont : (env pc).container
    · simp only [hcont, if_true]
      by_cases hnext : (env pc).nextButton
      · simp only [hnext, if_true]
        obtain ⟨hl, hc, hge⟩ := ih (dictUpdate d (extract_verbs_from_page (env pc).entries)) (pc + 1)
        refine ⟨by simpa using Nat.succ_le_succ hl, ?_, ?_⟩
        · refine List.chain'_cons'.mpr ⟨?_, hc⟩
          intro y hy
          have : pc + 1 ≤ y := hge y (List.mem_of_mem_head? hy)
          omega
        · intro x hx
          rcases List.mem_cons.mp hx with h1 | h1
          · omega
          · have := hge x h1; omega
      · simp [hnext]
    · simp [hcont]

/-- C5: for every execution, the search-session page loop performs at
most 10 iterations and the category-crawl listing loop at most 7,
regardless of how many enabled next-page controls the environment
reports, and both page counters strictly increase along their traces. -/
theorem pagination_bounds_and_monotonicity
    (senv : Nat → PageEnv) (cenv : Nat → CrawlPageEnv) :
    (collect_data senv).trace.length ≤ 10 ∧
    List.Chain' (· < ·) (collect_data senv).trace ∧
    (extract_biaspectives cenv).trace.length ≤ 7 ∧
    List.Chain' (· < ·) (extract_biaspectives cenv).trace :=
  ⟨(collectGo_trace_bounds senv 10 emptyBuckets 1).1,
   (collectGo_trace_bounds senv 10 emptyBuckets 1).2.1,
   (crawlGo_trace_bounds cenv 7 [] 1).1,
   (crawlGo_trace_bounds cenv 7 [] 1).2.1⟩

/-- C6: for every hit element entering per-item processing whose
detail-overlay close control can be located, the close control is clicked
exactly once before `process_element` returns, on every exit path (full
extraction success, partial-field failure, or an exception thrown during
extraction). -/
theorem close_clicked_exactly_once (e : ElementEnv) (h : e.closeButton = true) :
    (process_element e).2 = 1 := by
  simp [process_element, h]

/-- C6 witness: the close control is clicked exactly once on a fully
successful extraction, on a partial-field failure, and on an extraction
that throws. -/
theorem close_clicked_exactly_once_witness :
    (process_element hitFullSuccess).2 = 1 ∧
    (process_element hitPartial).2 = 1 ∧
    (process_element hitThrowing).2 = 1 :=
  ⟨close_clicked_exactly_once hitFullSuccess rfl,
   close_clicked_exactly_once hitPartial rfl,
   close_clicked_exactly_once hitThrowing rfl⟩

/-- Helper: lookup after a single dict assignment. -/
theorem dictLookup_dictInsert {K V : Type} [DecidableEq K]
    (a : List (K × V)) (k0 k : K) (v0 : V) :
    dictLookup (dictInsert a k0 v0) k = if k0 = k then some v0 else dictLookup a k := by
  induction a with
  | nil => simp [dictInsert, dictLookup]
  | cons p t ih =>
    by_cases h : p.1 = k0
    · by_cases hk : k0 = k
      · subst hk; simp [dictInsert, h, dictLookup]
      · have hpk : p.1 ≠ k := by rw [h]; exact hk
        simp [dictInsert, dictLookup, h, hk, hpk]
    · by_cases hpk : p.1 = k
      · have hk : k0 ≠ k := fun he => h (by rw [hpk, he])
        have hk2 : k ≠ k0 := Ne.symm hk
        simp [dictInsert, dictLookup, h, hpk, hk, hk2]
      · simp [dictInsert, dictLookup, h, hpk, ih]

/-- Helper: lookup after folding a run of dict assignments. -/
theorem dictLookup_foldl_insert {K V : Type} [DecidableEq K] (l : List (K × V)) :
    ∀ (a : List (K × V)) (k : K),
      dictLookup (l.foldl (fun acc p => dictInsert acc p.1 p.2) a) k =
        match lookupLast l k with
        | some v => some v
        | none => dictLookup a k := by
  induction l with
  | nil => intro a k; simp [lookupLast]
  | cons p t ih =>
    intro a k
    simp only [List.foldl_cons, lookupLast]
    rw [ih]
    cases hl : lookupLast t k with
    | some v => rfl
    | none =>
      dsimp only
      rw [dictLookup_dictInsert]
      by_cases h : p.1 = k <;> simp [h]

/-- Helper: lookup after a Python `dict.update`. -/
theorem dictLookup_dictUpdate {K V : Type} [DecidableEq K]
    (a l : List (K × V)) (k : K) :
    dictLookup (dictUpdate a l) k =
      match lookupLast l k with
      | some v => some v
      | none => dictLookup a k :=
  dictLookup_foldl_insert l a k

/-- Helper: lookup after iterated `dict.update` merges is last-page-wins. -/
theorem dictLookup_foldl_update {K V : Type} [DecidableEq K]
    (ds : List (List (K × V))) :
    ∀ (a : List (K × V)) (k : K),
      dictLookup (ds.foldl dictUpdate a) k =
        match lastWins ds k with
        | some v => some v
        | none => dictLookup a k := by
  induction ds with
  | nil => intro a k; simp [lastWins]
  | cons d ds ih =>
    intro a k
    simp only [List.foldl_cons, lastWins]
    rw [ih]
    cases hl : lastWins ds k with
    | some v => rfl
    | none =>
      dsimp only
      rw [dictLookup_dictUpdate]

/-- Helper: assigning a different key leaves a key's entry count alone. -/
theorem keyCount_dictInsert_ne {K V : Type} [DecidableEq K]
    (k0 k : K) (v0 : V) (h : k0 ≠ k) :
    ∀ a : List (K × V), keyCount (dictInsert a k0 v0) k = keyCount a k := by
  intro a
  induction a with
  | nil => simp [dictInsert, keyCount, h]
  | cons p t ih =>
    by_cases hp : p.1 = k0
    · have hpk : p.1 ≠ k := by rw [hp]; exact h
      simp [dictInsert, hp, keyCount, h, hpk]
    · simp [dictInsert, hp, keyCount, ih]

/-- Helper: dict assignment preserves keys being unique. -/
theorem keyCount_dictInsert_le {K V : Type} [DecidableEq K]
    (k0 k : K) (v0 : V) :
    ∀ a : List (K × V), keyCount a k ≤ 1 → keyCount (dictInsert a k0 v0) k ≤ 1 := by
  by_cases hk : k0 = k
  · subst hk
    intro a
    induction a with
    | nil => intro h; simp [dictInsert, keyCount]
    | cons p t ih =>
      intro h
      simp only [keyCount] at h
      by_cases hp : p.1 = k0
      · rw [if_pos hp] at h
        have hins : dictInsert (p :: t) k0 v0 = (k0, v0) :: t := by
          simp [dictInsert, hp]
        rw [hins]
        simp [keyCount]
        omega
      · rw [if_neg hp] at h
        have hins : dictInsert (p :: t) k0 v0 = p :: dictInsert t k0 v0 := by
          simp [dictInsert, hp]
        rw [hins]
        simp only [keyCount]
        rw [if_neg hp]
        have := ih (by omega)
        omega
  · intro a h
    rw [keyCount_dictInsert_ne k0 k v0 hk a]
    exact h

/-- Helper: `dict.update` preserves keys being unique. -/
theorem keyCount_dictUpdate_le {K V : Type} [DecidableEq K]
    (k : K) (l : List (K × V)) :
    ∀ a : List (K × V), keyCount a k ≤ 1 → keyCount (dictUpdate a l) k ≤ 1 := by
  induction l with
  | nil => intro a h; exact h
  | cons p t ih =>
    intro a h
    exact ih (dictInsert a p.1 p.2) (keyCount_dictInsert_le p.1 k p.2 a h)

/-- Helper: iterated `dict.update` preserves keys being unique. -/
theorem keyCount_foldl_update_le {K V : Type} [DecidableEq K]
    (k : K) (ds : List (List (K × V))) :
    ∀ a : List (K × V), keyCount a k ≤ 1 → keyCount (ds.foldl dictUpdate a) k ≤ 1 := by
  induction ds with
  | nil => intro a h; exact h
  | cons d ds ih =>
    intro a h
    exact ih (dictUpdate a d) (keyCount_dictUpdate_le k d a h)

/-- Helper: a successful lookup means the key has an entry. -/
theorem keyCount_pos_of_lookup {K V : Type} [DecidableEq K] :
    ∀ (d : List (K × V)) (k : K) (v : V), dictLookup d k = some v → 1 ≤ keyCount d k := by
  intro d
  induction d with
  | nil => intro k v h; simp [dictLookup] at h
  | cons p t ih =>
    intro k v h
    by_cases hp : p.1 = k
    · simp [keyCount, hp]
    · simp only [dictLookup, if_neg hp] at h
      have := ih k v h
      simp only [keyCount, if_neg hp]
      omega

/-- Helper: the crawl dict is the fold of the processed page dicts. -/
theorem crawlGo_dict_eq (env : Nat → CrawlPageEnv) :
    ∀ (fuel : Nat) (d : List (List Char × List Char)) (pc : Nat),
      (crawlGo env d pc fuel).dict =
        (crawlGo env d pc fuel).pageDicts.foldl dictUpdate d := by
  intro fuel
  induction fuel with
  | zero => intro d pc; rfl
  | succ f ih =>
    intro d pc
    simp only [crawlGo]
    by_cases hc : (env pc).container
    · simp only [hc, if_true]
      by_cases hn : (env pc).nextButton
      · simp only [hn, if_true]
        rw [List.foldl_cons]
        exact ih _ _
      · simp [hn]
    · simp [hc]

/-- C7: for every category crawl, the lookup of any label in the
resulting article index is the last-page-wins merge of the harvested page
dicts (a label re-harvested on a later listing page holds the later
page's URL), and the index holds at most — and when the label is present,
exactly — one URL per label. -/
theorem article_index_last_page_wins (env : Nat → CrawlPageEnv) (k : List Char) :
    dictLookup (extract_biaspectives env).dict k =
      lastWins (extract_biaspectives env).pageDicts k ∧
    keyCount (extract_biaspectives env).dict k ≤ 1 ∧
    (∀ v, dictLookup (extract_biaspectives env).dict k = some v →
      keyCount (extract_biaspectives env).dict k = 1) := by
  have hd : (extract_biaspectives env).dict =
      (extract_biaspectives env).pageDicts.foldl dictUpdate [] :=
    crawlGo_dict_eq env 7 [] 1
  have hcount : keyCount (extract_biaspectives env).dict k ≤ 1 := by
    rw [hd]
    exact keyCount_foldl_update_le k _ [] (by simp [keyCount])
  refine ⟨?_, hcount, ?_⟩
  · rw [hd, dictLookup_foldl_update]
    cases hl : lastWins (extract_biaspectives env).pageDicts k <;> simp [dictLookup]
  · intro v hv
    have h1 := keyCount_pos_of_lookup _ k v hv
    omega

/-- C7 witness: a crawl whose second listing page repeats the label
"брать" with a different URL ends with exactly one entry for the label,
holding page 2's URL. -/
theorem article_index_last_page_wins_witness :
    dictLookup (extract_biaspectives repeatLabelCrawl).dict "брать".data =
      lastWins (extract_biaspectives repeatLabelCrawl).pageDicts "брать".data ∧
    keyCount (extract_biaspectives repeatLabelCrawl).dict "брать".data = 1 :=
  ⟨(article_index_last_page_wins repeatLabelCrawl "брать".data).1,
   (article_index_last_page_wins repeatLabelCrawl "брать".data).2.2
     "https://w/a2".data (by decide)⟩

/-- C8: for every (label, url) pair visited by the Detail Harvester, a
MorphologyRecord is emitted iff the page's third paragraph-like text
block contains the citation marker "[Тихонов, 1996]"; an article whose
analysis lacks the marker contributes nothing to the dataset. -/
theorem morphology_record_iff_citation_marker :
    (∀ (verb p2 : List Char) (paragraphs : List (List Char)),
      paragraphs.get? 2 = some p2 →
      ((∃ m, extract_verb_morphonology verb paragraphs = Except.ok (some m)) ↔
        hasSub citMarker (strip p2) = true)) ∧
    (∀ (pageOf : List Char → List (List Char)) (verb url : List Char)
        (rest : List (List Char × List Char)) (acc : List VerbMorphonology)
        (visited : List (List Char × List Char)),
      extract_verb_morphonology verb (pageOf url) = Except.ok none →
      parseGo pageOf ((verb, url) :: rest) acc visited =
        parseGo pageOf rest acc (visited ++ [(verb, url)])) := by
  constructor
  · intro verb p2 paragraphs h
    rcases paragraphs with _ | ⟨a, _ | ⟨b, _ | ⟨c, t⟩⟩⟩
    · simp [List.get?] at h
    · simp [List.get?] at h
    · simp [List.get?] at h
    · have hc : c = p2 := by simpa [List.get?] using h
      subst hc
      simp only [extract_verb_morphonology, List.get?]
      cases hm : hasSub citMarker (strip c) <;> simp [hm]
  · intro pageOf verb url rest acc visited h
    simp [parseGo, h]

/-- C8 witness: the emission criterion evaluated on a well-formed
article page whose morphemic analysis carries the citation marker. -/
theorem morphology_record_iff_citation_marker_witness :
    (∃ m, extract_verb_morphonology "приватизировать".data markedParagraphs =
        Except.ok (some m)) ↔
      hasSub citMarker (strip "приват-из-ирова-ть [Тихонов, 1996]".data) = true :=
  morphology_record_iff_citation_marker.1 "приватизировать".data
    "приват-из-ирова-ть [Тихонов, 1996]".data markedParagraphs rfl

/-- C9: an index-out-of-range fault while reading a malformed article
page aborts the entire remaining harvest loop — no later (label, url)
pair is visited — while the records emitted before the fault are retained
in the dataset. -/
theorem index_error_aborts_harvest (pageOf : List Char → List (List Char))
    (verb url : List Char) (rest : List (List Char × List Char))
    (acc : List VerbMorphonology) (visited : List (List Char × List Char))
    (h : extract_verb_morphonology verb (pageOf url) =
      Except.error IndexError.indexError) :
    parseGo pageOf ((verb, url) :: rest) acc visited =
      (acc, visited ++ [(verb, url)]) := by
  simp [parseGo, h]

/-- C9 witness: a harvest hitting a malformed (paragraph-less) page on
its first pair keeps the previously emitted record and never visits the
second pair. -/
theorem index_error_aborts_harvest_witness :
    parseGo (fun _ => []) [("а".data, "u1".data), ("б".data, "u2".data)]
      [earlierRecord] [] = ([earlierRecord], [("а".data, "u1".data)]) :=
  index_error_aborts_harvest (fun _ => []) "а".data "u1".data
    [("б".data, "u2".data)] [earlierRecord] [] rfl

/-- Helper: processing a page's hits decomposes over list append. -/
theorem processHits_append (l1 l2 : List ElementEnv) :
    ∀ b : Buckets,
      processHits b (l1 ++ l2) =
        match processHits b l1 with
        | (b1, none) => processHits b1 l2
        | (b1, some ex) => (b1, some ex) := by
  induction l1 with
  | nil => intro b; rfl
  | cons e t ih =>
    intro b
    simp only [List.cons_append, processHits]
    cases hpe : process_element e with
    | mk r n =>
      cases r with
      | error ex => rfl
      | ok wd => exact ih (routeRecord wd b)

/-- C10: if locating the detail-overlay close control fails during
per-item cleanup, the element-not-found fault escapes `process_element`
and is caught by the page loop, which stops processing the current word's
remaining hits and pages while still returning the buckets accumulated so
far. -/
theorem close_locate_failure_stops_page_loop
    (e : ElementEnv) (env : Nat → PageEnv) (b b1 : Buckets)
    (pre rest : List ElementEnv) (pn f : Nat)
    (hclose : e.closeButton = false)
    (hhits : (env pn).hits = Except.ok (pre ++ e :: rest))
    (hpre : processHits b pre = (b1, none)) :
    (process_element e).1 = Except.error Exn.noSuchElement ∧
    collectGo env b pn (f + 1) = ⟨b1, [pn]⟩ := by
  have hpe : process_element e = (Except.error Exn.noSuchElement, 0) := by
    simp [process_element, hclose]
  have hph : processHits b (pre ++ e :: rest) = (b1, some Exn.noSuchElement) := by
    rw [processHits_append pre (e :: rest) b, hpre]
    simp [processHits, hpe]
  refine ⟨by rw [hpe], ?_⟩
  simp [collectGo, hhits, hph]

/-- C10 witness: a page whose second hit lacks a close control (with a
next page on offer) ends the page loop at page 1, returning the record
routed from the first hit. -/
theorem close_locate_failure_stops_page_loop_witness :
    (process_element hitNoClose).1 = Except.error Exn.noSuchElement ∧
    collectGo noClosePages emptyBuckets 1 (9 + 1) =
      ⟨⟨[], [recordOf hitFullSuccess], []⟩, [1]⟩ :=
  close_locate_failure_stops_page_loop hitNoClose noClosePages emptyBuckets
    ⟨[], [recordOf hitFullSuccess], []⟩ [hitFullSuccess] [] 1 9 rfl rfl (by decide)

end BiaspectualVerbs
